import Mathlib

/-!
Verification of the spectral-index pipeline (`src/backend/app/metrics.py`)
and the band inspector (`src/backend/app/band_inspector.py`).

Pixel values are IEEE floating-point numbers there; we embed them exactly as
`FVal`: a finite rational, one of the two infinities, or NaN (the missing-data
marker).  Arithmetic on finite values is exact rational arithmetic (the spec's
contracts are the exact closed-form formulas, so rounding is abstracted away);
the non-finite cases follow IEEE-754 semantics as numpy exposes them, with
`numpy.seterr`/warnings suppressed so no operation ever raises.  Signed zero is
not modelled: the values flowing through this pipeline (uint16 band data and
differences/sums thereof) never produce a negative zero.

2-D arrays are modelled row-major flattened as `List FVal`: every operation
under verification is elementwise or a global reduction, so the shape is
irrelevant to the stated properties.
-/

inductive FVal where
  | fin : ℚ → FVal
  | pinf : FVal
  | ninf : FVal
  | nan : FVal
deriving DecidableEq, Repr

namespace FVal

def isFinite : FVal → Bool
  | fin _ => true
  | _ => false

def isNan : FVal → Bool
  | nan => true
  | _ => false

/-- IEEE addition (numpy `+` on float arrays). -/
def add : FVal → FVal → FVal
  | nan, _ => nan
  | _, nan => nan
  | pinf, ninf => nan
  | ninf, pinf => nan
  | pinf, _ => pinf
  | _, pinf => pinf
  | ninf, _ => ninf
  | _, ninf => ninf
  | fin a, fin b => fin (a + b)

/-- IEEE subtraction (numpy `-` on float arrays). -/
def sub : FVal → FVal → FVal
  | nan, _ => nan
  | _, nan => nan
  | pinf, pinf => nan
  | ninf, ninf => nan
  | pinf, _ => pinf
  | _, pinf => ninf
  | ninf, _ => ninf
  | _, ninf => pinf
  | fin a, fin b => fin (a - b)

/-- IEEE division (numpy `/` with `seterr(divide='ignore', invalid='ignore')`):
division by zero yields a signed infinity, `0/0` yields NaN, never an error. -/
def div : FVal → FVal → FVal
  | nan, _ => nan
  | _, nan => nan
  | pinf, pinf => nan
  | pinf, ninf => nan
  | ninf, pinf => nan
  | ninf, ninf => nan
  | pinf, fin b => if b < 0 then ninf else pinf
  | ninf, fin b => if b < 0 then pinf else ninf
  | fin _, pinf => fin 0
  | fin _, ninf => fin 0
  | fin a, fin b =>
      if b = 0 then (if a = 0 then nan else if 0 < a then pinf else ninf)
      else fin (a / b)

/-- IEEE `>=` comparison as numpy evaluates it: any comparison with NaN is false. -/
def ge : FVal → FVal → Bool
  | nan, _ => false
  | _, nan => false
  | pinf, _ => true
  | ninf, ninf => true
  | ninf, _ => false
  | fin _, pinf => false
  | fin _, ninf => true
  | fin a, fin b => b ≤ a

/-- IEEE `!=` comparison as numpy evaluates it: NaN is unequal to everything. -/
def ne : FVal → FVal → Bool
  | nan, _ => true
  | _, nan => true
  | x, y => x ≠ y

/-- IEEE `==` comparison: NaN equals nothing. -/
def eqv : FVal → FVal → Bool
  | nan, _ => false
  | _, nan => false
  | x, y => x = y

/-- Multiplication of a float by a finite scalar (numpy scalar `*` array);
`0 * inf` is NaN per IEEE. -/
def mulQ (t : ℚ) : FVal → FVal
  | nan => nan
  | pinf => if 0 < t then pinf else if t < 0 then ninf else nan
  | ninf => if 0 < t then ninf else if t < 0 then pinf else nan
  | fin a => fin (t * a)

end FVal

open FVal

/-- The finite (valid, per `np.isfinite`) values of an array, in order:
`arr[np.isfinite(arr)]`. -/
def finiteVals : List FVal → List ℚ
  | [] => []
  | .fin q :: rest => q :: finiteVals rest
  | .pinf :: rest => finiteVals rest
  | .ninf :: rest => finiteVals rest
  | .nan :: rest => finiteVals rest

/-- Number of valid (finite) pixels. -/
def validCount (arr : List FVal) : ℕ := (finiteVals arr).length

/-- `valid.min()` over the nonempty rational list `q :: qs`. -/
def lmin (q : ℚ) (qs : List ℚ) : ℚ := qs.foldl min q

/-- `valid.max()` over the nonempty rational list `q :: qs`. -/
def lmax (q : ℚ) (qs : List ℚ) : ℚ := qs.foldl max q

/-- `metrics.ndvi` applied at one pixel: `(nir - red) / (nir + red)`. -/
def ndviPix (nir red : FVal) : FVal := (nir.sub red).div (nir.add red)

/-- `metrics.ndwi` applied at one pixel: `(green - nir) / (green + nir)`. -/
def ndwiPix (green nir : FVal) : FVal := (green.sub nir).div (green.add nir)

/-- `metrics.psri` applied at one pixel: `(red - green) / blue`. -/
def psriPix (red green blue : FVal) : FVal := (red.sub green).div blue

/-- `metrics.ndvi`: elementwise `(nir - red) / (nir + red)` over two same-shape
arrays. -/
def ndvi (nir red : List FVal) : List FVal := List.zipWith ndviPix nir red

/-- `metrics.ndwi`: elementwise `(green - nir) / (green + nir)`. -/
def ndwi (green nir : List FVal) : List FVal := List.zipWith ndwiPix green nir

/-- `metrics.psri`: elementwise `(red - green) / blue`. -/
def psri (red green blue : List FVal) : List FVal :=
  List.zipWith (fun r gb => psriPix r gb.1 gb.2) red (List.zipWith Prod.mk green blue)

/-- `metrics.mask_saturated_pixels`: cast to float (exact in this model) and
replace every element `>= saturation_value` by NaN.  The source builds a fresh
float array via `astype` and then writes NaN into it, so the caller's array is
untouched; the returned contents are modelled here. -/
def mask_saturated_pixels (arr : List FVal) (saturation_value : ℚ := 65535) : List FVal :=
  arr.map fun x => if x.ge (fin saturation_value) then nan else x

/-- The elementwise update `stretch` performs on its non-degenerate branch:
finite `v` becomes `(v - a) / (b - a)`; non-finite values stay put
(`arr[valid] = ...` touches only finite positions). -/
def stretchFn (a b : ℚ) : FVal → FVal
  | .fin v => .fin ((v - a) / (b - a))
  | y => y

/-- `metrics.stretch`, as the contents of the returned buffer: if the array has
no finite value, or its finite minimum equals its finite maximum, the values
are unchanged; otherwise every finite `x` becomes `(x - a) / (b - a)`. -/
def stretch (arr : List FVal) : List FVal :=
  match finiteVals arr with
  | [] => arr
  | q :: qs =>
      if lmax q qs = lmin q qs then arr
      else arr.map (stretchFn (lmin q qs) (lmax q qs))

/-- The source `stretch` mutates the buffer it is given (`arr[valid] = ...`)
and returns that same buffer: the post-state of the caller's argument equals
the stretched contents. -/
def stretchPost (arr : List FVal) : List FVal := stretch arr

/-- The two buffers alive in `metrics.main` when `--stretch` is set: the index
array kept for reporting (`ndvi_img`) and the fresh copy passed to `stretch`
(`ndvi_img.copy()`).  Distinct heap cells are distinct fields. -/
structure StretchHeap where
  orig : List FVal
  copyBuf : List FVal
deriving DecidableEq, Repr

/-- `metrics.main` line `ndvi_stretched = stretch(ndvi_img.copy())`: allocate a
copy of the original, then run the in-place stretch on that copy only. -/
def mainStretchCall (a : List FVal) : StretchHeap :=
  let h : StretchHeap := { orig := a, copyBuf := a }
  { h with copyBuf := stretchPost h.copyBuf }

/-- What `metrics.print_statistics` prints: either the explicit
"No valid pixels!" line, or the range/mean/valid-pixel report. -/
inductive StatsReport where
  | noValid : StatsReport
  | report (minV maxV meanV : ℚ) (count : ℕ) (pct : ℚ) : StatsReport
deriving DecidableEq, Repr

/-- `metrics.print_statistics`: `valid = array[np.isfinite(array)]`; if any
valid pixel exists it reports `valid.min()`, `valid.max()`, `valid.mean()`,
`len(valid)` and `len(valid)/array.size*100`, otherwise the explicit
no-valid-pixels state. -/
def print_statistics (arr : List FVal) : StatsReport :=
  match finiteVals arr with
  | [] => .noValid
  | q :: qs =>
      .report (lmin q qs) (lmax q qs)
        ((q :: qs).sum / (q :: qs).length)
        (q :: qs).length
        ((q :: qs).length / (arr.length : ℚ) * 100)

/-! ## Band inspector (`band_inspector.py`) -/

/-- Python truthiness of a float, as `if src.nodata:` evaluates it:
`0.0` and `None` are falsy, every other float (NaN and infinities included)
is truthy. -/
def pyTruthy : FVal → Bool
  | .fin q => q ≠ 0
  | _ => true

/-- `band_inspector.inspect_file` line
`valid_data = band_data[band_data != src.nodata] if src.nodata else band_data`:
the values a band's min/max/mean/std are computed over.  `nodata = none` models
an undeclared marker (`src.nodata is None`). -/
def inspect_valid (nodata : Option FVal) (band : List FVal) : List FVal :=
  match nodata with
  | none => band
  | some nd => if pyTruthy nd then band.filter (fun x => x.ne nd) else band

/-- Modelled from the spec (§4.5 wording, for comparison with the code): the
statistics are computed "over values not equal to the file's declared
missing-value marker (if any)" — whenever a marker is declared it is
filtered out. -/
def inspect_valid_spec (nodata : Option FVal) (band : List FVal) : List FVal :=
  match nodata with
  | none => band
  | some nd => band.filter (fun x => x.ne nd)

/-- The per-band report of `inspect_file`'s statistics loop.  `std` is the
square root of `sqDev`; the selection of contributing values (the claim's
subject) is fully captured by the fields below, so the rational `sqDev`
(mean squared deviation) stands in for it. -/
structure BandReport where
  shape : ℕ
  minV : FVal
  maxV : FVal
  meanV : FVal
  sqDev : FVal
  saturatedCount : ℕ
  zeroCount : ℕ
deriving DecidableEq, Repr

/-- numpy `ndarray.min` over a nonempty float array: NaN propagates. -/
def npMin (q : FVal) (qs : List FVal) : FVal :=
  qs.foldl (fun x y =>
    if x.isNan || y.isNan then nan
    else if x.ge y then y else x) q

/-- numpy `ndarray.max` over a nonempty float array: NaN propagates. -/
def npMax (q : FVal) (qs : List FVal) : FVal :=
  qs.foldl (fun x y =>
    if x.isNan || y.isNan then nan
    else if x.ge y then x else y) q

/-- numpy `ndarray.mean` over a nonempty array. -/
def npMean (q : FVal) (qs : List FVal) : FVal :=
  ((qs.foldl FVal.add q).mulQ (1 / (qs.length + 1 : ℚ)))

/-- IEEE squaring, used for the squared deviations behind `std`. -/
def sqFV : FVal → FVal
  | .fin v => .fin (v * v)
  | .nan => nan
  | _ => pinf

/-- The body of `inspect_file`'s per-band `try`: compute the statistics of one
band.  When every pixel equals the (truthy) nodata marker, `valid_data` is
empty and `valid_data.min()` raises `ValueError` — modelled as `Except.error`,
caught by the enclosing `except`. -/
def analyze_band (nodata : Option FVal) (band : List FVal) :
    Except String BandReport :=
  match inspect_valid nodata band with
  | [] => .error "zero-size array to reduction operation minimum"
  | q :: qs =>
      let m := npMean q qs
      .ok { shape := band.length
            minV := npMin q qs
            maxV := npMax q qs
            meanV := m
            sqDev := npMean (sqFV (q.sub m)) (qs.map (fun x => sqFV (x.sub m)))
            saturatedCount := (band.filter (fun x => x.ge (fin 65535))).length
            zeroCount := (band.filter (fun x => x.eqv (fin 0))).length }

/-- One printed line of the band-statistics loop: a statistics block or an
`ERROR reading` line. -/
inductive BandLine where
  | ok : BandReport → BandLine
  | err : String → BandLine
deriving DecidableEq, Repr

/-- The band-statistics loop of `inspect_file`: each band read either yields
data or raises (`Except.error`), and the loop body is wrapped in
`try/except`, so every band contributes exactly one line and a failure never
stops the loop. -/
def inspect_bands (nodata : Option FVal)
    (bands : List (Except String (List FVal))) : List BandLine :=
  bands.map fun r =>
    match r with
    | .error e => .err ("ERROR reading - " ++ e)
    | .ok band =>
        match analyze_band nodata band with
        | .error e => .err ("ERROR reading - " ++ e)
        | .ok rep => .ok rep

/-! ## Visualization (`metrics.create_legend_labels`, `metrics.visualize_index`) -/

/-- The legend dictionary of `metrics.create_legend_labels`. -/
structure LegendInfo where
  title : String
  labels : List String
  descr : String
deriving DecidableEq, Repr

/-- `metrics.create_legend_labels`: a dictionary for exactly the names
`'NDVI'`, `'NDWI'`, `'PSRI'`; any other name falls off the `if/elif` chain and
returns Python `None`, modelled as `none`. -/
def create_legend_labels (index_name : String) : Option LegendInfo :=
  if index_name = "NDVI" then
    some { title := "Vegetation Vigor"
           labels := ["Bare Soil/Rock", "Sparse Vegetation",
                      "Moderate Vegetation", "Dense Vegetation"]
           descr := "Green indicates healthy, vigorous vegetation" }
  else if index_name = "NDWI" then
    some { title := "Water Content/Stress"
           labels := ["Very Dry", "Dry", "Moderate", "Wet/High Water Content"]
           descr := "Blue indicates high water content, brown indicates water stress" }
  else if index_name = "PSRI" then
    some { title := "Plant Senescence/Stress"
           labels := ["Healthy/Young", "Slightly Stressed",
                      "Moderately Stressed", "Highly Stressed/Senescent"]
           descr := "Green indicates healthy plants, yellow/red indicates stress or aging" }
  else none

/-- Total order used by numpy's sort on arrays without NaN
(`-inf < finite < +inf`). -/
def fvalLe : FVal → FVal → Bool
  | .ninf, _ => true
  | _, .ninf => false
  | _, .pinf => true
  | .pinf, _ => false
  | .fin a, .fin b => a ≤ b
  | .nan, _ => true
  | _, .nan => false

def insertFV (x : FVal) : List FVal → List FVal
  | [] => [x]
  | y :: ys => if fvalLe x y then x :: y :: ys else y :: insertFV x ys

def sortFV (l : List FVal) : List FVal := l.foldr insertFV []

/-- The linear-interpolation quantile numpy computes over an ascending-sorted
array `s` for an integer percentile `q` (the source passes only 2 and 98):
virtual index `r = q/100 * (len-1)`, neighbours `s[⌊r⌋]` and `s[⌈r⌉]`, and
numpy's `_lerp`, which switches to the upper-anchored form `b - (1-t)*(b-a)`
once the fraction `t` reaches `1/2`.  For an integer `q` the floor, ceiling
and fraction of `r` are exactly `x / 100`, `(x + 99) / 100` (integer
division) and `(x % 100) / 100` with `x = q * (len - 1)`.  Empty data yields
NaN (numpy warns and returns NaN; warnings are suppressed in `metrics.py`). -/
def percentileSorted (s : List FVal) (q : ℕ) : FVal :=
  match s with
  | [] => nan
  | _ :: _ =>
      let x : ℕ := q * (s.length - 1)
      let t : ℚ := ((x % 100 : ℕ) : ℚ) / 100
      let a := s.getD (x / 100) nan
      let b := s.getD ((x + 99) / 100) nan
      if t < 1 / 2 then a.add ((b.sub a).mulQ t)
      else b.sub ((b.sub a).mulQ (1 - t))

/-- `np.nanpercentile`: the percentile of the non-NaN values (infinities,
when present, participate). -/
def nanpercentile (arr : List FVal) (q : ℕ) : FVal :=
  percentileSorted (sortFV (arr.filter (fun x => !x.isNan))) q

/-- Modelled from the spec (§4.6 wording, for comparison with the code): the
generic color domain is "the 2nd/98th percentile of finite values" — the same
interpolation, but over only the finite values of the array. -/
def percentileOfFinite (arr : List FVal) (q : ℕ) : FVal :=
  percentileSorted (sortFV (arr.filter (fun x => x.isFinite))) q

/-- The `[vmin, vmax]` color-domain selection of `metrics.visualize_index`
(lines 98–114): caller-supplied bounds win; otherwise NDVI/NDWI/PSRI get their
fixed domains and any other name gets `np.nanpercentile(arr, 2)` /
`np.nanpercentile(arr, 98)`. -/
def visualize_domain (index_name : String) (arr : List FVal)
    (vmin vmax : Option FVal) : FVal × FVal :=
  if index_name = "NDVI" then
    (vmin.getD (fin (-2/10)), vmax.getD (fin (8/10)))
  else if index_name = "NDWI" then
    (vmin.getD (fin (-5/10)), vmax.getD (fin (3/10)))
  else if index_name = "PSRI" then
    (vmin.getD (fin (-1/10)), vmax.getD (fin (2/10)))
  else
    (vmin.getD (nanpercentile arr 2), vmax.getD (nanpercentile arr 98))

/-- `metrics.visualize_index` up to its completion: after the domain selection
the title line evaluates `create_legend_labels(index_name)["title"]`, which
raises `TypeError` when the lookup returned `None`; completion therefore
requires the legend lookup to succeed.  The result carries the selected
domain and the title. -/
def visualize_index_run (index_name : String) (arr : List FVal)
    (vmin vmax : Option FVal) : Option (FVal × FVal × String) :=
  let d := visualize_domain index_name arr vmin vmax
  (create_legend_labels index_name).map fun li =>
    (d.1, d.2, index_name ++ " - " ++ li.title)

/-- An array has a non-degenerate finite range: it has finite values and their
minimum is strictly below their maximum. -/
def nondegenerate (arr : List FVal) : Bool :=
  match finiteVals arr with
  | [] => false
  | q :: qs => decide (lmin q qs < lmax q qs)

/-!
## Helper lemmas
-/

theorem lmin_le_base (q : ℚ) (qs : List ℚ) : lmin q qs ≤ q := by
  induction qs generalizing q with
  | nil => exact le_refl q
  | cons x xs ih =>
      calc lmin q (x :: xs) = lmin (min q x) xs := rfl
        _ ≤ min q x := ih (min q x)
        _ ≤ q := min_le_left q x

theorem le_lmax_base (q : ℚ) (qs : List ℚ) : q ≤ lmax q qs := by
  induction qs generalizing q with
  | nil => exact le_refl q
  | cons x xs ih =>
      calc q ≤ max q x := le_max_left q x
        _ ≤ lmax (max q x) xs := ih (max q x)
        _ = lmax q (x :: xs) := rfl

theorem lmin_le_of_mem {r q : ℚ} {qs : List ℚ} (h : r ∈ q :: qs) :
    lmin q qs ≤ r := by
  induction qs generalizing q with
  | nil =>
      rcases List.mem_singleton.1 h with rfl
      exact le_refl r
  | cons x xs ih =>
      rcases List.mem_cons.1 h with rfl | h2
      · exact le_trans (le_trans (lmin_le_base _ xs) (min_le_left r x)) (le_refl r)
      · rcases List.mem_cons.1 h2 with rfl | h3
        · exact le_trans (lmin_le_base _ xs) (min_le_right q r)
        · exact ih (List.mem_cons_of_mem _ h3)

theorem le_lmax_of_mem {r q : ℚ} {qs : List ℚ} (h : r ∈ q :: qs) :
    r ≤ lmax q qs := by
  induction qs generalizing q with
  | nil =>
      rcases List.mem_singleton.1 h with rfl
      exact le_refl r
  | cons x xs ih =>
      rcases List.mem_cons.1 h with rfl | h2
      · exact le_trans (le_max_left r x) (le_lmax_base _ xs)
      · rcases List.mem_cons.1 h2 with rfl | h3
        · exact le_trans (le_max_right q r) (le_lmax_base _ xs)
        · exact ih (List.mem_cons_of_mem _ h3)

theorem lmin_map (g : ℚ → ℚ) (hg : ∀ x y : ℚ, g (min x y) = min (g x) (g y))
    (q : ℚ) (qs : List ℚ) : lmin (g q) (qs.map g) = g (lmin q qs) := by
  induction qs generalizing q with
  | nil => rfl
  | cons x xs ih =>
      calc lmin (g q) ((x :: xs).map g) = lmin (min (g q) (g x)) (xs.map g) := rfl
        _ = lmin (g (min q x)) (xs.map g) := by rw [hg]
        _ = g (lmin (min q x) xs) := ih (min q x)
        _ = g (lmin q (x :: xs)) := rfl

theorem lmax_map (g : ℚ → ℚ) (hg : ∀ x y : ℚ, g (max x y) = max (g x) (g y))
    (q : ℚ) (qs : List ℚ) : lmax (g q) (qs.map g) = g (lmax q qs) := by
  induction qs generalizing q with
  | nil => rfl
  | cons x xs ih =>
      calc lmax (g q) ((x :: xs).map g) = lmax (max (g q) (g x)) (xs.map g) := rfl
        _ = lmax (g (max q x)) (xs.map g) := by rw [hg]
        _ = g (lmax (max q x) xs) := ih (max q x)
        _ = g (lmax q (x :: xs)) := rfl

theorem finiteVals_map_stretchFn (a b : ℚ) (l : List FVal) :
    finiteVals (l.map (stretchFn a b))
      = (finiteVals l).map (fun v => (v - a) / (b - a)) := by
  induction l with
  | nil => rfl
  | cons x xs ih => cases x <;> simpa [finiteVals, stretchFn] using ih

theorem map_stretchFn_zero_one (l : List FVal) : l.map (stretchFn 0 1) = l := by
  induction l with
  | nil => rfl
  | cons x xs ih => cases x <;> simp [stretchFn, ih]

theorem stretch_of_nil {arr : List FVal} (h : finiteVals arr = []) :
    stretch arr = arr := by
  unfold stretch
  rw [h]

theorem stretch_of_eq {arr : List FVal} {q : ℚ} {qs : List ℚ}
    (h : finiteVals arr = q :: qs) (he : lmax q qs = lmin q qs) :
    stretch arr = arr := by
  unfold stretch
  rw [h]
  simp [he]

theorem stretch_of_ne {arr : List FVal} {q : ℚ} {qs : List ℚ}
    (h : finiteVals arr = q :: qs) (hne : lmax q qs ≠ lmin q qs) :
    stretch arr = arr.map (stretchFn (lmin q qs) (lmax q qs)) := by
  unfold stretch
  rw [h]
  simp [hne]

theorem get?_zipWith {α β γ : Type} (f : α → β → γ) (u : List α) (v : List β)
    (i : ℕ) (x : α) (y : β) (hx : u.get? i = some x) (hy : v.get? i = some y) :
    (List.zipWith f u v).get? i = some (f x y) := by
  induction u generalizing v i with
  | nil => simp at hx
  | cons a u ih =>
      cases v with
      | nil => simp at hy
      | cons b v =>
          cases i with
          | zero =>
              simp only [List.get?] at hx hy
              cases hx; cases hy; rfl
          | succ n =>
              simpa using ih v n (by simpa using hx) (by simpa using hy)

theorem finiteVals_replicate (n : ℕ) (c : ℚ) :
    finiteVals (List.replicate n (fin c)) = List.replicate n c := by
  induction n with
  | zero => rfl
  | succ n ih => simpa [finiteVals, List.replicate_succ] using ih

theorem lmin_replicate (c : ℚ) (n : ℕ) : lmin c (List.replicate n c) = c := by
  induction n with
  | zero => rfl
  | succ n ih =>
      calc lmin c (List.replicate (n + 1) c)
          = lmin (min c c) (List.replicate n c) := rfl
        _ = lmin c (List.replicate n c) := by rw [min_self]
        _ = c := ih

theorem lmax_replicate (c : ℚ) (n : ℕ) : lmax c (List.replicate n c) = c := by
  induction n with
  | zero => rfl
  | succ n ih =>
      calc lmax c (List.replicate (n + 1) c)
          = lmax (max c c) (List.replicate n c) := rfl
        _ = lmax c (List.replicate n c) := by rw [max_self]
        _ = c := ih

/-!
## Claims
-/

/-- C2: `mask_saturated_pixels` with threshold 65535 maps every element
`>= 65535` (under IEEE comparison) to NaN and leaves every other element
unchanged; on `[[0, 65535], [100, 200]]` it yields `[[0, NaN], [100, 200]]`,
whose summary has valid count 3, minimum 0 and maximum 200. -/
theorem C2_mask_contract (arr : List FVal) :
    (mask_saturated_pixels arr).length = arr.length ∧
    (∀ i (h : i < arr.length),
      ((arr.get ⟨i, h⟩).ge (fin 65535) = true →
        (mask_saturated_pixels arr).get
          ⟨i, by simpa [mask_saturated_pixels] using h⟩ = nan) ∧
      ((arr.get ⟨i, h⟩).ge (fin 65535) = false →
        (mask_saturated_pixels arr).get
          ⟨i, by simpa [mask_saturated_pixels] using h⟩ = arr.get ⟨i, h⟩)) ∧
    mask_saturated_pixels [fin 0, fin 65535, fin 100, fin 200]
      = [fin 0, nan, fin 100, fin 200] ∧
    print_statistics (mask_saturated_pixels [fin 0, fin 65535, fin 100, fin 200])
      = .report 0 200 100 3 75 := by
  refine ⟨by simp [mask_saturated_pixels], fun i h => ⟨?_, ?_⟩, by decide, by
    norm_num [print_statistics, mask_saturated_pixels, finiteVals, lmin, lmax, FVal.ge]⟩
  · intro hge
    simp only [List.get_eq_getElem] at hge ⊢
    simp [mask_saturated_pixels, hge]
  · intro hge
    simp only [List.get_eq_getElem] at hge ⊢
    simp [mask_saturated_pixels, hge]

theorem C2_mask_contract_witness :
    (([fin 70000, fin 3].get ⟨0, by decide⟩).ge (fin 65535) = true ∧
      (mask_saturated_pixels [fin 70000, fin 3]).get ⟨0, by decide⟩ = nan) ∧
    (([fin 70000, fin 3].get ⟨1, by decide⟩).ge (fin 65535) = false ∧
      (mask_saturated_pixels [fin 70000, fin 3]).get ⟨1, by decide⟩
        = [fin 70000, fin 3].get ⟨1, by decide⟩) := by
  have h := (C2_mask_contract [fin 70000, fin 3]).2.1
  exact ⟨⟨by decide, (h 0 (by decide)).1 (by decide)⟩,
         ⟨by decide, (h 1 (by decide)).2 (by decide)⟩⟩

/-- C6: `print_statistics` aggregates only over the finite elements; with zero
finite elements it reports the explicit no-valid-pixels state (and never
raises — it is a total function); otherwise the reported percentage is
`valid_count / total_count * 100` and min/max/mean are those of the finite
values. -/
theorem C6_statistics_contract (arr : List FVal) :
    (validCount arr = 0 ↔ print_statistics arr = .noValid) ∧
    (∀ mn mx me c p, print_statistics arr = .report mn mx me c p →
      c = validCount arr ∧
      p = (validCount arr : ℚ) / (arr.length : ℚ) * 100 ∧
      ∃ q qs, finiteVals arr = q :: qs ∧ mn = lmin q qs ∧ mx = lmax q qs ∧
        me = (q :: qs).sum / ((q :: qs).length : ℚ)) := by
  rcases hfv : finiteVals arr with _ | ⟨q, qs⟩
  · unfold print_statistics
    rw [hfv]
    refine ⟨by simp [validCount, hfv], ?_⟩
    intro mn mx me c p hrep
    cases hrep
  · unfold print_statistics
    rw [hfv]
    constructor
    · constructor
      · intro h0
        simp [validCount, hfv] at h0
      · intro h0
        cases h0
    · intro mn mx me c p hrep
      cases hrep
      refine ⟨by simp [validCount, hfv], by simp [validCount, hfv],
        q, qs, rfl, rfl, rfl, rfl⟩

theorem C6_statistics_contract_witness :
    (validCount [FVal.nan, pinf] = 0 ∧ print_statistics [FVal.nan, pinf] = .noValid) ∧
    (1 = validCount [fin 4, FVal.nan] ∧
      (50 : ℚ) = (validCount [fin 4, FVal.nan] : ℚ)
          / (([fin 4, FVal.nan] : List FVal).length : ℚ) * 100 ∧
      ∃ q qs, finiteVals [fin 4, FVal.nan] = q :: qs ∧ (4 : ℚ) = lmin q qs ∧
        (4 : ℚ) = lmax q qs ∧ (4 : ℚ) = (q :: qs).sum / ((q :: qs).length : ℚ)) := by
  refine ⟨⟨by decide, (C6_statistics_contract [FVal.nan, pinf]).1.1 (by decide)⟩, ?_⟩
  exact (C6_statistics_contract [fin 4, FVal.nan]).2 4 4 4 1 50
    (by norm_num [print_statistics, finiteVals, lmin, lmax])

/-- C8: during band inspection, a band whose read or analysis fails produces
exactly one error line and the loop still produces one line for every other
band: the report for a list with a failing band splits around that band, and
the number of report lines always equals the number of bands. -/
theorem C8_per_band_failure_isolated (nodata : Option FVal) (e : String)
    (pre post bands : List (Except String (List FVal))) :
    inspect_bands nodata (pre ++ Except.error e :: post)
      = inspect_bands nodata pre
        ++ BandLine.err ("ERROR reading - " ++ e) :: inspect_bands nodata post ∧
    (inspect_bands nodata bands).length = bands.length := by
  constructor
  · simp [inspect_bands]
  · simp [inspect_bands]

/-- C10: `create_legend_labels` yields a legend exactly for the names `NDVI`,
`NDWI`, `PSRI` and Python `None` otherwise, and `visualize_index` (which
subscripts that result to build its title) completes exactly when the name is
one of those three. -/
theorem C10_legend_only_three (name : String) (arr : List FVal)
    (vmin vmax : Option FVal) :
    ((create_legend_labels name).isSome = true
        ↔ (name = "NDVI" ∨ name = "NDWI" ∨ name = "PSRI")) ∧
    ((visualize_index_run name arr vmin vmax).isSome = true
        ↔ (name = "NDVI" ∨ name = "NDWI" ∨ name = "PSRI")) := by
  have h : ∀ s : String, (create_legend_labels s).isSome = true
      ↔ (s = "NDVI" ∨ s = "NDWI" ∨ s = "PSRI") := by
    intro s
    by_cases h1 : s = "NDVI" <;> by_cases h2 : s = "NDWI" <;>
      by_cases h3 : s = "PSRI" <;> simp [create_legend_labels, h1, h2, h3]
  refine ⟨h name, ?_⟩
  rw [show (visualize_index_run name arr vmin vmax).isSome
        = (create_legend_labels name).isSome by
      simp [visualize_index_run]]
  exact h name

/-- C1, counterexample: at a pixel with finite operands whose sum is zero but
whose difference is not, `ndvi` yields `+inf` (IEEE `2.0 / 0.0`), which is not
the NaN missing marker the claim demands at every zero-denominator pixel. -/
theorem C1_counterexample :
    (1 : ℚ) + (-1) = 0 ∧
    ndvi [fin 1] [fin (-1)] = [pinf] ∧
    pinf ≠ FVal.nan := by
  refine ⟨by norm_num, ?_, by decide⟩
  norm_num [ndvi, ndviPix, FVal.sub, FVal.add, FVal.div]

/-- C1, amended: with a nonzero denominator the three index formulas compute
exactly their closed forms; a missing (NaN) operand propagates to NaN; a zero
denominator never raises and always yields a non-finite result — NaN exactly
when the numerator is also zero (as for the nonnegative masked bands), and a
signed infinity otherwise.  Elementwise: each output pixel is the pixel
formula applied to the input pixels at the same position. -/
theorem C1_index_division_contract (a b c : ℚ) :
    (a + b ≠ 0 → ndviPix (fin a) (fin b) = fin ((a - b) / (a + b))) ∧
    (a + b = 0 → (ndviPix (fin a) (fin b)).isFinite = false) ∧
    (a + b = 0 → a - b = 0 → ndviPix (fin a) (fin b) = nan) ∧
    (a + b = 0 → a - b ≠ 0 →
      ndviPix (fin a) (fin b) = (if 0 < a - b then pinf else ninf)) ∧
    (∀ x, ndviPix nan x = nan ∧ ndviPix x nan = nan) ∧
    (a + b ≠ 0 → ndwiPix (fin a) (fin b) = fin ((a - b) / (a + b))) ∧
    (a + b = 0 → (ndwiPix (fin a) (fin b)).isFinite = false) ∧
    (a + b = 0 → a - b = 0 → ndwiPix (fin a) (fin b) = nan) ∧
    (a + b = 0 → a - b ≠ 0 →
      ndwiPix (fin a) (fin b) = (if 0 < a - b then pinf else ninf)) ∧
    (∀ x, ndwiPix nan x = nan ∧ ndwiPix x nan = nan) ∧
    (c ≠ 0 → psriPix (fin a) (fin b) (fin c) = fin ((a - b) / c)) ∧
    (c = 0 → (psriPix (fin a) (fin b) (fin c)).isFinite = false) ∧
    (c = 0 → a - b = 0 → psriPix (fin a) (fin b) (fin c) = nan) ∧
    (c = 0 → a - b ≠ 0 →
      psriPix (fin a) (fin b) (fin c) = (if 0 < a - b then pinf else ninf)) ∧
    (∀ x y, psriPix nan x y = nan ∧ psriPix x nan y = nan ∧ psriPix x y nan = nan) ∧
    (∀ (u v : List FVal) (i : ℕ) (x y : FVal), u.get? i = some x → v.get? i = some y →
      (ndvi u v).get? i = some (ndviPix x y) ∧
      (ndwi u v).get? i = some (ndwiPix x y)) ∧
    (∀ (u v w : List FVal) (i : ℕ) (x y z : FVal),
      u.get? i = some x → v.get? i = some y → w.get? i = some z →
      (psri u v w).get? i = some (psriPix x y z)) := by
  refine ⟨?_, ?_, ?_, ?_, ?_, ?_, ?_, ?_, ?_, ?_, ?_, ?_, ?_, ?_, ?_, ?_, ?_⟩
  · intro h
    simp [ndviPix, FVal.sub, FVal.add, FVal.div, h]
  · intro h
    simp only [ndviPix, FVal.sub, FVal.add, FVal.div, h]
    split_ifs <;> simp [FVal.isFinite]
  · intro h hn
    simp [ndviPix, FVal.sub, FVal.add, FVal.div, h, hn]
  · intro h hn
    simp [ndviPix, FVal.sub, FVal.add, FVal.div, h, hn]
  · intro x
    exact ⟨by cases x <;> rfl, by cases x <;> rfl⟩
  · intro h
    simp [ndwiPix, FVal.sub, FVal.add, FVal.div, h]
  · intro h
    simp only [ndwiPix, FVal.sub, FVal.add, FVal.div, h]
    split_ifs <;> simp [FVal.isFinite]
  · intro h hn
    simp [ndwiPix, FVal.sub, FVal.add, FVal.div, h, hn]
  · intro h hn
    simp [ndwiPix, FVal.sub, FVal.add, FVal.div, h, hn]
  · intro x
    exact ⟨by cases x <;> rfl, by cases x <;> rfl⟩
  · intro h
    simp [psriPix, FVal.sub, FVal.div, h]
  · intro h
    simp only [psriPix, FVal.sub, FVal.div, h]
    split_ifs <;> simp [FVal.isFinite]
  · intro h hn
    simp [psriPix, FVal.sub, FVal.div, h, hn]
  · intro h hn
    simp [psriPix, FVal.sub, FVal.div, h, hn]
  · intro x y
    refine ⟨by cases x <;> cases y <;> rfl, by cases x <;> cases y <;> rfl,
      by cases x <;> cases y <;> rfl⟩
  · intro u v i x y hx hy
    exact ⟨get?_zipWith ndviPix u v i x y hx hy, get?_zipWith ndwiPix u v i x y hx hy⟩
  · intro u v w i x y z hx hy hz
    exact get?_zipWith (fun r gb => psriPix r gb.1 gb.2) u _ i x (y, z) hx
      (get?_zipWith Prod.mk v w i y z hy hz)

theorem C1_index_division_contract_witness :
    ((200 : ℚ) + 50 ≠ 0 ∧ ndviPix (fin 200) (fin 50) = fin ((200 - 50) / (200 + 50))) ∧
    ((0 : ℚ) + 0 = 0 ∧ (0 : ℚ) - 0 = 0 ∧ ndviPix (fin 0) (fin 0) = nan) ∧
    ((1 : ℚ) + (-1) = 0 ∧ (1 : ℚ) - (-1) ≠ 0 ∧
      ndviPix (fin 1) (fin (-1)) = (if (0 : ℚ) < 1 - (-1) then pinf else ninf)) ∧
    ((-1 : ℚ) + 1 = 0 ∧ (-1 : ℚ) - 1 ≠ 0 ∧
      ndwiPix (fin (-1)) (fin 1) = (if (0 : ℚ) < (-1) - 1 then pinf else ninf)) ∧
    ((3 : ℚ) - 2 ≠ 0 ∧
      psriPix (fin 3) (fin 2) (fin 0) = (if (0 : ℚ) < 3 - 2 then pinf else ninf)) := by
  have h1 := C1_index_division_contract 200 50 0
  have h2 := C1_index_division_contract 0 0 0
  have h3 := C1_index_division_contract 1 (-1) 0
  have h4 := C1_index_division_contract (-1) 1 0
  have h5 := C1_index_division_contract 3 2 0
  exact ⟨⟨by norm_num, h1.1 (by norm_num)⟩,
         ⟨by norm_num, by norm_num, h2.2.2.1 (by norm_num) (by norm_num)⟩,
         ⟨by norm_num, by norm_num, h3.2.2.2.1 (by norm_num) (by norm_num)⟩,
         ⟨by norm_num, by norm_num, h4.2.2.2.2.2.2.2.2.1 (by norm_num) (by norm_num)⟩,
         ⟨by norm_num,
           h5.2.2.2.2.2.2.2.2.2.2.2.2.2.1 (by norm_num) (by norm_num)⟩⟩

/-- C3: `stretch` returns the array unchanged when there are no finite values
or when the finite minimum equals the finite maximum (so in particular on
constant-valued arrays), and otherwise maps every finite element `x` to
`(x - a) / (b - a)` while the non-finite (missing) elements stay in place. -/
theorem C3_stretch_cases (arr : List FVal) :
    (finiteVals arr = [] → stretch arr = arr) ∧
    (∀ q qs, finiteVals arr = q :: qs →
      lmax q qs = lmin q qs → stretch arr = arr) ∧
    (∀ q qs, finiteVals arr = q :: qs → lmax q qs ≠ lmin q qs →
      stretch arr = arr.map (stretchFn (lmin q qs) (lmax q qs))) ∧
    (∀ (c : ℚ) (n : ℕ), stretch (List.replicate n (fin c)) = List.replicate n (fin c)) := by
  refine ⟨fun h => stretch_of_nil h,
          fun q qs h he => stretch_of_eq h he,
          fun q qs h hne => stretch_of_ne h hne, ?_⟩
  intro c n
  cases n with
  | zero => rfl
  | succ m =>
      apply @stretch_of_eq (List.replicate (m + 1) (fin c)) c (List.replicate m c)
      · rw [List.replicate_succ, show finiteVals (fin c :: List.replicate m (fin c))
              = c :: finiteVals (List.replicate m (fin c)) from rfl,
            finiteVals_replicate]
      · rw [lmax_replicate, lmin_replicate]

theorem C3_stretch_cases_witness :
    (finiteVals [FVal.nan, pinf] = [] ∧ stretch [FVal.nan, pinf] = [FVal.nan, pinf]) ∧
    stretch [fin 5, fin 5] = [fin 5, fin 5] ∧
    stretch [fin 0, fin 2, FVal.nan] = [fin 0, fin 1, FVal.nan] := by
  refine ⟨⟨rfl, (C3_stretch_cases [FVal.nan, pinf]).1 rfl⟩, ?_, ?_⟩
  · exact (C3_stretch_cases [fin 5, fin 5]).2.1 5 [5] rfl (by decide)
  · have h := (C3_stretch_cases [fin 0, fin 2, FVal.nan]).2.2.1 0 [2] rfl (by decide)
    rw [h]
    norm_num [stretchFn, lmin, lmax]

/-- C4, counterexample: the source `stretch` writes the rescaled values into
the very buffer it was passed (`arr[valid] = ...; return arr`), so after the
call the caller's argument no longer holds its pre-call values. -/
theorem C4_counterexample :
    stretchPost [fin 0, fin 2] = [fin 0, fin 1] ∧
    stretchPost [fin 0, fin 2] ≠ [fin 0, fin 2] := by
  constructor
  · show stretch [fin 0, fin 2] = [fin 0, fin 1]
    have h := @stretch_of_ne [fin 0, fin 2] 0 [2] rfl (by decide)
    rw [h]
    norm_num [stretchFn, lmin, lmax]
  · intro h
    have h2 : stretch [fin 0, fin 2] = [fin 0, fin 1] := by
      have h3 := @stretch_of_ne [fin 0, fin 2] 0 [2] rfl (by decide)
      rw [h3]
      norm_num [stretchFn, lmin, lmax]
    rw [show stretchPost [fin 0, fin 2] = stretch [fin 0, fin 2] from rfl, h2] at h
    have := List.tail_eq_of_cons_eq h
    simp at this

/-- C4, amended: `stretch` mutates the buffer passed to it (its post-state is
the stretched contents), and the caller in `main` protects the reporting
array by passing a fresh copy — after `stretch(ndvi_img.copy())` the retained
original still holds its pre-call values. -/
theorem C4_copy_protects_original (a : List FVal) :
    (mainStretchCall a).orig = a ∧
    (mainStretchCall a).copyBuf = stretch a := ⟨rfl, rfl⟩

/-- C5: on an array whose finite range is non-degenerate, every finite value
of `stretch arr` lies in `[0, 1]`, and a second `stretch` is a no-op: the
stretched array's finite minimum and maximum are exactly 0 and 1, so the
second pass rescales by the identity map. -/
theorem C5_stretch_idempotent_bounded (arr : List FVal)
    (hnd : nondegenerate arr = true) :
    (∀ r ∈ finiteVals (stretch arr), 0 ≤ r ∧ r ≤ 1) ∧
    stretch (stretch arr) = stretch arr := by
  rcases hfv : finiteVals arr with _ | ⟨q, qs⟩
  · rw [nondegenerate, hfv] at hnd
    cases hnd
  · rw [nondegenerate, hfv, decide_eq_true_eq] at hnd
    have hba : (0 : ℚ) < lmax q qs - lmin q qs := sub_pos.2 hnd
    have hne : lmax q qs ≠ lmin q qs := ne_of_gt hnd
    have hst : stretch arr = arr.map (stretchFn (lmin q qs) (lmax q qs)) :=
      stretch_of_ne hfv hne
    have hmono : ∀ x y : ℚ, x ≤ y →
        (x - lmin q qs) / (lmax q qs - lmin q qs)
          ≤ (y - lmin q qs) / (lmax q qs - lmin q qs) := by
      intro x y hxy
      gcongr
    have hgmin : ∀ x y : ℚ,
        (min x y - lmin q qs) / (lmax q qs - lmin q qs)
          = min ((x - lmin q qs) / (lmax q qs - lmin q qs))
                ((y - lmin q qs) / (lmax q qs - lmin q qs)) := by
      intro x y
      rcases le_total x y with hxy | hxy
      · rw [min_eq_left hxy, min_eq_left (hmono _ _ hxy)]
      · rw [min_eq_right hxy, min_eq_right (hmono _ _ hxy)]
    have hgmax : ∀ x y : ℚ,
        (max x y - lmin q qs) / (lmax q qs - lmin q qs)
          = max ((x - lmin q qs) / (lmax q qs - lmin q qs))
                ((y - lmin q qs) / (lmax q qs - lmin q qs)) := by
      intro x y
      rcases le_total x y with hxy | hxy
      · rw [max_eq_right hxy, max_eq_right (hmono _ _ hxy)]
      · rw [max_eq_left hxy, max_eq_left (hmono _ _ hxy)]
    have hfv2 : finiteVals (stretch arr)
        = (q :: qs).map (fun v => (v - lmin q qs) / (lmax q qs - lmin q qs)) := by
      rw [hst, finiteVals_map_stretchFn, hfv]
    constructor
    · intro r hr
      rw [hfv2, List.mem_map] at hr
      rcases hr with ⟨v, hv, rfl⟩
      have h1 : lmin q qs ≤ v := lmin_le_of_mem hv
      have h2 : v ≤ lmax q qs := le_lmax_of_mem hv
      refine ⟨div_nonneg (by linarith) (le_of_lt hba), (div_le_one hba).2 (by linarith)⟩
    · have hcons : finiteVals (stretch arr)
          = ((q - lmin q qs) / (lmax q qs - lmin q qs))
            :: qs.map (fun v => (v - lmin q qs) / (lmax q qs - lmin q qs)) := by
        rw [hfv2, List.map_cons]
      have hmin2 : lmin ((q - lmin q qs) / (lmax q qs - lmin q qs))
          (qs.map (fun v => (v - lmin q qs) / (lmax q qs - lmin q qs))) = 0 := by
        rw [lmin_map (fun v => (v - lmin q qs) / (lmax q qs - lmin q qs)) hgmin q qs,
          sub_self, zero_div]
      have hmax2 : lmax ((q - lmin q qs) / (lmax q qs - lmin q qs))
          (qs.map (fun v => (v - lmin q qs) / (lmax q qs - lmin q qs))) = 1 := by
        rw [lmax_map (fun v => (v - lmin q qs) / (lmax q qs - lmin q qs)) hgmax q qs,
          div_self (ne_of_gt hba)]
      have hne2 : lmax ((q - lmin q qs) / (lmax q qs - lmin q qs))
            (qs.map (fun v => (v - lmin q qs) / (lmax q qs - lmin q qs)))
          ≠ lmin ((q - lmin q qs) / (lmax q qs - lmin q qs))
            (qs.map (fun v => (v - lmin q qs) / (lmax q qs - lmin q qs))) := by
        rw [hmin2, hmax2]
        exact one_ne_zero
      have h2 := stretch_of_ne hcons hne2
      rw [hmin2, hmax2] at h2
      rw [h2, map_stretchFn_zero_one]

theorem C5_stretch_idempotent_bounded_witness :
    nondegenerate [fin 0, fin 2, FVal.nan] = true ∧
    ((∀ r ∈ finiteVals (stretch [fin 0, fin 2, FVal.nan]), 0 ≤ r ∧ r ≤ 1) ∧
      stretch (stretch [fin 0, fin 2, FVal.nan]) = stretch [fin 0, fin 2, FVal.nan]) :=
  ⟨by decide, C5_stretch_idempotent_bounded [fin 0, fin 2, FVal.nan] (by decide)⟩

/-- C7: on a raster that declares the missing-value marker `0.0`, the
inspector's guard `if src.nodata:` is falsy, so the band statistics are
computed over all values — the marker included — where the claim (and the
intended behaviour) demands statistics over exactly the values not equal to
the declared marker.  On band `[0, 5]` the code reports `min = 0` while the
marker-filtered values are `[5]` with minimum 5.  A `None` or nonzero marker
behaves as claimed. -/
theorem C7_nodata_zero_divergence :
    inspect_valid (some (fin 0)) [fin 0, fin 5] = [fin 0, fin 5] ∧
    inspect_valid_spec (some (fin 0)) [fin 0, fin 5] = [fin 5] ∧
    analyze_band (some (fin 0)) [fin 0, fin 5]
      = Except.ok { shape := 2, minV := fin 0, maxV := fin 5,
                    meanV := fin (5/2), sqDev := fin (25/4),
                    saturatedCount := 0, zeroCount := 1 } ∧
    npMin (fin 5) [] = fin 5 ∧
    inspect_valid none [fin 0, fin 5] = [fin 0, fin 5] ∧
    inspect_valid (some (fin 7)) [fin 7, fin 5, fin 9] = [fin 5, fin 9] := by
  refine ⟨by decide, by decide, ?_, rfl, rfl, by decide⟩
  norm_num [analyze_band, inspect_valid, pyTruthy, npMin, npMax, npMean, sqFV,
    FVal.sub, FVal.add, FVal.mulQ, FVal.ge, FVal.eqv, FVal.isNan, List.filter]

/-- C9, counterexample: for a non-NDVI/NDWI/PSRI kind the renderer takes
`np.nanpercentile`, which ignores NaN but not infinities; on
`[0, 1, +inf]` the selected `vmax` is NaN (numpy's interpolation forms
`inf - inf`), not the 98th percentile of the finite values, which is `49/50`. -/
theorem C9_counterexample :
    (visualize_domain "INDEX" [fin 0, fin 1, pinf] none none).2 = FVal.nan ∧
    percentileOfFinite [fin 0, fin 1, pinf] 98 = fin (49/50) ∧
    FVal.nan ≠ fin (49/50) := by
  refine ⟨?_, ?_, by decide⟩
  · show nanpercentile [fin 0, fin 1, pinf] 98 = FVal.nan
    norm_num [nanpercentile, percentileSorted, sortFV, insertFV, fvalLe, FVal.isNan,
      FVal.sub, FVal.add, FVal.mulQ, List.filter]
  · norm_num [percentileOfFinite, percentileSorted, sortFV, insertFV, fvalLe,
      FVal.isFinite, FVal.sub, FVal.add, FVal.mulQ, List.filter]

/-- C9, amended: with no caller-supplied bounds the renderer selects the fixed
domains [-0.2, 0.8] for NDVI, [-0.5, 0.3] for NDWI and [-0.1, 0.2] for PSRI,
and for any other kind the 2nd and 98th `np.nanpercentile` of the array — the
percentiles of its non-NaN values (which equal the percentiles of the finite
values whenever no infinities are present, but not in general). -/
theorem C9_domain_selection (name : String) (arr : List FVal) :
    visualize_domain "NDVI" arr none none = (fin (-2/10), fin (8/10)) ∧
    visualize_domain "NDWI" arr none none = (fin (-5/10), fin (3/10)) ∧
    visualize_domain "PSRI" arr none none = (fin (-1/10), fin (2/10)) ∧
    (name ≠ "NDVI" → name ≠ "NDWI" → name ≠ "PSRI" →
      visualize_domain name arr none none
        = (nanpercentile arr 2, nanpercentile arr 98)) := by
  refine ⟨by simp [visualize_domain], by simp [visualize_domain],
    by simp [visualize_domain], ?_⟩
  intro h1 h2 h3
  simp [visualize_domain, h1, h2, h3]

theorem C9_domain_selection_witness :
    ("INDEX" ≠ "NDVI") ∧ ("INDEX" ≠ "NDWI") ∧ ("INDEX" ≠ "PSRI") ∧
    visualize_domain "INDEX" [fin 4] none none
      = (nanpercentile [fin 4] 2, nanpercentile [fin 4] 98) :=
  ⟨by decide, by decide, by decide,
    (C9_domain_selection "INDEX" [fin 4]).2.2.2 (by decide) (by decide) (by decide)⟩
